import Mathlib

/-!
A verification development for the ts-safe-cast runtime validator
(src/index.ts together with the Shape grammar of src/types.ts).

The embedding is shallow: JavaScript runtime values are modelled by the
inductive `JSValue` (numbers and bigints as integers; the textual rendering
of a `Date` is abstracted, as no property below depends on it; property
lookup and key enumeration use the stored field order and consider only own
keys, which is the fragment the validator exercises), and the recursive
validator `walk` is modelled as a fuel-indexed function: `none` means the
call does not return within the given recursion depth (or performs the
source's unguarded access on a malformed Reference path).  All loop bodies
of the source are separate structurally recursive functions parameterised
by the recursive-call function `w`, exactly mirroring the loop structure of
`validate`/`walk` in src/index.ts.
-/

namespace TsSafeCast

/-- A JavaScript runtime value, as far as the validator can observe it. -/
inductive JSValue where
  | str (s : String)
  | num (n : Int)
  | boolean (b : Bool)
  | bigint (n : Int)
  | date (t : Int)
  | null
  | undefined
  | arr (elems : List JSValue)
  | obj (fields : List (String × JSValue))

/-- The payload of a `Literal` shape: string, number, bigint, boolean,
null or undefined (src/types.ts). -/
inductive LitValue where
  | str (s : String)
  | num (n : Int)
  | bigint (n : Int)
  | boolean (b : Bool)
  | null
  | undefined
deriving DecidableEq, Repr

/-- `TupleElementType` of src/types.ts.  In the source, `Required` is the
absence of a modifier (the `type` slot is `undefined`, which is falsy);
`Optional = 1` and `Variable = 2` are both truthy. -/
inductive TupleElementType where
  | Required
  | Optional
  | Variable
deriving DecidableEq, Repr

mutual
/-- The `Shape` grammar of src/types.ts (the version with `Reference` and
tuple element modifiers, which is the one src/index.ts consumes). -/
inductive Shape where
  | string
  | number
  | boolean
  | unknown
  | bigint
  | date
  | array (elem : Shape)
  | tuple (items : List TupleItem)
  | literal (v : LitValue)
  | union (options : List Shape)
  | intersection (members : List Shape)
  | object (members : List ObjectMember)
  | reference (path : List Nat)

/-- An `ObjectMembers.Property` entry `[0, key, shape, true?]` or an
`ObjectMembers.IndexSignature` entry `[1, shape]` of src/types.ts. -/
inductive ObjectMember where
  | property (key : String) (shape : Shape) (optional : Bool)
  | indexSignature (shape : Shape)

/-- A tuple item `[Shape, TupleElementType?]` of src/types.ts. -/
inductive TupleItem where
  | mk (shape : Shape) (type : TupleElementType)
end

/-- `ParserError` of src/index.ts: carries only its message string. -/
structure PError where
  msg : String
deriving DecidableEq, Repr

mutual
/-- Template-literal coercion `${data}` of a JavaScript value, as used in
error messages.  Arrays join their elements with commas (null and undefined
rendering as empty), plain objects render as `[object Object]`; the exact
locale-dependent rendering of a `Date` is abstracted. -/
def jsToString : JSValue → String
  | .str s => s
  | .num n => toString n
  | .boolean b => if b then "true" else "false"
  | .bigint n => toString n
  | .date t => "Date(" ++ toString t ++ ")"
  | .null => "null"
  | .undefined => "undefined"
  | .arr elems => String.intercalate "," (jsToStringElems elems)
  | .obj _ => "[object Object]"

def jsToStringElems : List JSValue → List String
  | [] => []
  | .null :: rest => "" :: jsToStringElems rest
  | .undefined :: rest => "" :: jsToStringElems rest
  | x :: rest => jsToString x :: jsToStringElems rest
end

/-- `fail(path, expected, data)` of src/index.ts. -/
def fail (path : String) (expected : String) (data : JSValue) : PError :=
  ⟨"Expected " ++ path ++ " to be " ++ expected ++ ", got " ++ jsToString data⟩

/-- Template-literal coercion `${error}` of a `ParserError` instance: the
class does not override `name`, so `Error.prototype.toString` renders it. -/
def errorToString (e : PError) : String :=
  "Error: " ++ e.msg

/-- The aggregate error built in the `Types.Union` case of src/index.ts. -/
def unionFail (path : String) (errors : List PError) : PError :=
  ⟨"Expected " ++ path ++ " to be a union, but no branches matched: " ++
    String.join (errors.map (fun e => "\n\t• " ++ errorToString e))⟩

/-- Template-literal coercion `${v}` of a literal payload, used in the
`Types.Literal` failure message. -/
def litToString : LitValue → String
  | .str s => s
  | .num n => toString n
  | .bigint n => toString n
  | .boolean b => if b then "true" else "false"
  | .null => "null"
  | .undefined => "undefined"

/-- Strict equality `data === v` between a runtime value and a literal
payload.  Objects, arrays and dates are never strictly equal to a literal
primitive (reference inequality). -/
def litEq : JSValue → LitValue → Bool
  | .str s, .str s' => s == s'
  | .num n, .num n' => n == n'
  | .bigint n, .bigint n' => n == n'
  | .boolean b, .boolean b' => b == b'
  | .null, .null => true
  | .undefined, .undefined => true
  | _, _ => false

/-- `data[i]` on an array: reading past the end yields `undefined`. -/
def arrGet (elems : List JSValue) (i : Nat) : JSValue :=
  elems.getD i .undefined

/-- The path string `path ++ "." ++ i` built for an element access. -/
def itemPath (path : String) (i : Nat) : String :=
  path ++ "." ++ toString i

/-- The path string `path ++ "." ++ key` built for a member access. -/
def keyPath (path : String) (key : String) : String :=
  path ++ "." ++ key

/-- The admission test of the `Types.Object` case:
`data` truthy and `typeof data === 'object'`.  Arrays, plain objects and
dates all pass; `null` is falsy, and every other value has a different
`typeof`. -/
def isObjectLike : JSValue → Bool
  | .arr _ => true
  | .obj _ => true
  | .date _ => true
  | _ => false

/-- Does the canonical decimal rendering of some `i < n` equal `key`?
(Array index keys are exactly the canonical numerals below the length.) -/
def isIndexKey (key : String) (n : Nat) : Bool :=
  (List.range n).any (fun i => toString i == key)

/-- `key in object`: own-key presence.  On arrays the own keys are the
element indices and `length`. -/
def hasKey (data : JSValue) (key : String) : Bool :=
  match data with
  | .obj fields => fields.any (fun f => f.1 == key)
  | .arr elems => isIndexKey key elems.length || key == "length"
  | _ => false

/-- `object[key]`: own-property read, `undefined` when absent. -/
def getProp (data : JSValue) (key : String) : JSValue :=
  match data with
  | .obj fields =>
    match fields.find? (fun f => f.1 == key) with
    | some f => f.2
    | none => .undefined
  | .arr elems =>
    match (List.range elems.length).find? (fun i => toString i == key) with
    | some i => arrGet elems i
    | none => if key == "length" then .num elems.length else .undefined
  | _ => .undefined

/-- `for(const key in object)`: the own enumerable keys, in stored order
for plain objects and index order for arrays (`length` is not
enumerable). -/
def ownEnumKeys : JSValue → List String
  | .obj fields => fields.map (fun f => f.1)
  | .arr elems => (List.range elems.length).map toString
  | _ => []

/-- The outcome of one `walk` call: success (`undefined`) or a returned
`ParserError`. -/
inductive WalkResult where
  | ok
  | err (e : PError)
deriving DecidableEq, Repr

/-- The recursive-call function a loop body closes over. -/
abbrev Walker := JSValue → Shape → String → Option WalkResult

/-- One step of resolving a Reference path: `target[i]` on the runtime
array representation of a shape node.  An intermediate position may be an
object-member or tuple-item array rather than a shape.  Steps that do not
land on a child of the node (the tag slot, a key string, a modifier, or an
out-of-range index) are the source's unguarded malformed-shape accesses and
resolve to nothing here. -/
inductive RNode where
  | shape (s : Shape)
  | member (m : ObjectMember)
  | item (it : TupleItem)

def resolveStep : RNode → Nat → Option RNode
  | .shape (.array e), 1 => some (.shape e)
  | .shape (.tuple items), i + 1 =>
    (items.get? i).map .item
  | .shape (.union options), i + 1 =>
    (options.get? i).map .shape
  | .shape (.intersection members), i + 1 =>
    (members.get? i).map .shape
  | .shape (.object members), i + 1 =>
    (members.get? i).map .member
  | .member (.property _ s _), 2 => some (.shape s)
  | .member (.indexSignature s), 1 => some (.shape s)
  | .item (.mk s _), 0 => some (.shape s)
  | _, _ => none

/-- Resolve a Reference path against the root shape:
`let target = root; for(i) target = target[path[i]];` — meaningful only
when the walk ends on a shape node. -/
def resolvePath (root : Shape) (path : List Nat) : Option Shape :=
  go (.shape root) path
where
  go : RNode → List Nat → Option Shape
    | .shape s, [] => some s
    | node, i :: rest =>
      match resolveStep node i with
      | some node' => go node' rest
      | none => none
    | _, [] => none

/-- The `Types.Array` element loop of src/index.ts: indices in order,
first failure returned. -/
def arrayLoop (w : Walker) (e : Shape) (path : String) :
    List JSValue → Nat → Option WalkResult
  | [], _ => some .ok
  | x :: rest, i =>
    match w x e (itemPath path i) with
    | none => none
    | some (.err er) => some (.err er)
    | some .ok => arrayLoop w e path rest (i + 1)

/-- The greedy loop run for a `Variable` tuple item, counting down the
remaining positions `elems.length - mx`: test `data[mx]`, advance the
frontier on success, stop on the first failure (discarding its error) or at
the data length. -/
def varLoopAux (w : Walker) (elems : List JSValue) (s : Shape) (path : String) :
    Nat → Nat → Option Nat
  | 0, mx => some mx
  | k + 1, mx =>
    match w (arrGet elems mx) s (itemPath path mx) with
    | none => none
    | some .ok => varLoopAux w elems s path k (mx + 1)
    | some (.err _) => some mx

/-- The `Variable` case of the tuple item loop. -/
def varLoop (w : Walker) (elems : List JSValue) (s : Shape) (path : String)
    (mx : Nat) : Option Nat :=
  varLoopAux w elems s path (elems.length - mx) mx

/-- The `Optional` case of the tuple item loop: at most one test of
`data[mx]` (none at all when the frontier is already at the data length),
advancing the frontier exactly when the test succeeds; a failure's error is
discarded. -/
def optionalStep (w : Walker) (elems : List JSValue) (s : Shape)
    (path : String) (mx : Nat) : Option Nat :=
  if mx < elems.length then
    match w (arrGet elems mx) s (itemPath path mx) with
    | none => none
    | some .ok => some (mx + 1)
    | some (.err _) => some mx
  else some mx

/-- The `Required` (no modifier) loop of the tuple case, counting down
`mx - mn`: test `data[mn]` and advance `mn`; on success the item is
satisfied (extending the frontier to `mn` when it reached or passed it); on
failure return the error once `mn` exceeds the frontier `mx`, else retry at
the next position.  The `0`-with-retry branch is unreachable from
`requiredLoop`, where the counter is exact. -/
def requiredLoopAux (w : Walker) (elems : List JSValue) (s : Shape)
    (path : String) (mx : Nat) : Nat → Nat → Option (Sum PError (Nat × Nat))
  | 0, mn =>
    match w (arrGet elems mn) s (itemPath path mn) with
    | none => none
    | some .ok => some (.inr (mn + 1, if mx ≤ mn + 1 then mn + 1 else mx))
    | some (.err e) =>
      if mx < mn + 1 then some (.inl e) else none
  | k + 1, mn =>
    match w (arrGet elems mn) s (itemPath path mn) with
    | none => none
    | some .ok => some (.inr (mn + 1, if mx ≤ mn + 1 then mn + 1 else mx))
    | some (.err e) =>
      if mx < mn + 1 then some (.inl e)
      else requiredLoopAux w elems s path mx k (mn + 1)

/-- The `Required` case of the tuple item loop, returning either the
element error that aborts the whole tuple or the updated cursor pair. -/
def requiredLoop (w : Walker) (elems : List JSValue) (s : Shape)
    (path : String) (mn mx : Nat) : Option (Sum PError (Nat × Nat)) :=
  requiredLoopAux w elems s path mx (mx - mn) mn

/-- The `for(const [shape, type] of items)` loop of the `Types.Tuple`
case, threading the committed cursor `mn` (`min` in the source) and the
frontier cursor `mx` (`max`). -/
def tupleItems (w : Walker) (elems : List JSValue) (path : String) :
    List TupleItem → Nat → Nat → Option (Sum PError (Nat × Nat))
  | [], mn, mx => some (.inr (mn, mx))
  | .mk s t :: rest, mn, mx =>
    match t with
    | .Required =>
      match requiredLoop w elems s path mn mx with
      | none => none
      | some (.inl e) => some (.inl e)
      | some (.inr (mn', mx')) => tupleItems w elems path rest mn' mx'
    | .Optional =>
      match optionalStep w elems s path mx with
      | none => none
      | some mx' => tupleItems w elems path rest mn mx'
    | .Variable =>
      match varLoop w elems s path mx with
      | none => none
      | some mx' => tupleItems w elems path rest mn mx'

/-- The whole `Types.Tuple` case: non-arrays fail immediately; after the
item loop, a frontier short of the data length fails with the same
"a tuple" error (unmatched trailing elements). -/
def tupleCase (w : Walker) (data : JSValue) (items : List TupleItem)
    (path : String) : Option WalkResult :=
  match data with
  | .arr elems =>
    match tupleItems w elems path items 0 0 with
    | none => none
    | some (.inl e) => some (.err e)
    | some (.inr (_, mx)) =>
      if mx < elems.length then some (.err (fail path "a tuple" data))
      else some .ok
  | _ => some (.err (fail path "a tuple" data))

/-- The `for(const key in object)` loop of an `IndexSignature` member. -/
def indexLoop (w : Walker) (data : JSValue) (s : Shape) (path : String) :
    List String → Option (Option PError)
  | [] => some none
  | key :: rest =>
    match w (getProp data key) s (keyPath path key) with
    | none => none
    | some (.err e) => some (some e)
    | some .ok => indexLoop w data s path rest

/-- The member loop of the `Types.Object` case: a `Property` whose key is
absent is skipped when optional and otherwise fails with the
"expected defined" error; a present key's value is walked; an
`IndexSignature` walks every enumerable own key of the record. -/
def memberLoop (w : Walker) (data : JSValue) (path : String) :
    List ObjectMember → Option (Option PError)
  | [] => some none
  | .property key s opt :: rest =>
    if hasKey data key then
      match w (getProp data key) s (keyPath path key) with
      | none => none
      | some (.err e) => some (some e)
      | some .ok => memberLoop w data path rest
    else if opt then memberLoop w data path rest
    else some (some (fail (keyPath path key) "defined" (.str "undefined")))
  | .indexSignature s :: rest =>
    match indexLoop w data s path (ownEnumKeys data) with
    | none => none
    | some (some e) => some (some e)
    | some none => memberLoop w data path rest

/-- The whole `Types.Object` case: the admission test
`!data || typeof data !== 'object'` followed by the member loop. -/
def objectCase (w : Walker) (data : JSValue) (members : List ObjectMember)
    (path : String) : Option WalkResult :=
  if isObjectLike data then
    match memberLoop w data path members with
    | none => none
    | some none => some .ok
    | some (some e) => some (.err e)
  else some (.err (fail path "an object" data))

/-- The `Types.Union` loop: alternatives in order, first success returns
immediately, and when every alternative has failed the collected errors are
wrapped into one aggregate error at the union's own path. -/
def unionLoop (w : Walker) (data : JSValue) (path : String) :
    List Shape → List PError → Option WalkResult
  | [], errors => some (.err (unionFail path errors))
  | o :: rest, errors =>
    match w data o path with
    | none => none
    | some .ok => some .ok
    | some (.err e) => unionLoop w data path rest (errors ++ [e])

/-- The whole `Types.Union` case. -/
def unionCase (w : Walker) (data : JSValue) (options : List Shape)
    (path : String) : Option WalkResult :=
  unionLoop w data path options []

/-- The `Types.Intersection` loop: members in order against the same data
and path; the first failure is returned as-is. -/
def interLoop (w : Walker) (data : JSValue) (path : String) :
    List Shape → Option WalkResult
  | [] => some .ok
  | m :: rest =>
    match w data m path with
    | none => none
    | some (.err e) => some (.err e)
    | some .ok => interLoop w data path rest

/-- The recursive `walk(data, shape, path)` of src/index.ts, indexed by
the recursion depth still allowed: `walk 0 … = none`, and every recursive
call of the source runs at one unit less.  The enclosing `validate`'s
`root` is carried for Reference resolution. -/
def walk : Nat → Shape → JSValue → Shape → String → Option WalkResult
  | 0, _, _, _, _ => none
  | fuel + 1, root, data, shape, path =>
    let w : Walker := fun d s p => walk fuel root d s p
    match shape with
    | .string =>
      some (if data matches .str _ then .ok else .err (fail path "a string" data))
    | .number =>
      some (if data matches .num _ then .ok else .err (fail path "a number" data))
    | .boolean =>
      some (if data matches .boolean _ then .ok else .err (fail path "a boolean" data))
    | .unknown => some .ok
    | .bigint =>
      some (if data matches .bigint _ then .ok else .err (fail path "a bigint" data))
    | .date =>
      some (if data matches .date _ then .ok else .err (fail path "a date" data))
    | .object members => objectCase w data members path
    | .array e =>
      match data with
      | .arr elems => arrayLoop w e path elems 0
      | _ => some (.err (fail path "an array" data))
    | .tuple items => tupleCase w data items path
    | .literal v =>
      some (if litEq data v then .ok else .err (fail path (litToString v) data))
    | .union options => unionCase w data options path
    | .intersection members => interLoop w data path members
    | .reference p =>
      (resolvePath root p).elim none (fun target => walk fuel root data target path)

/-- A value thrown by an entry point: either a plain `Error` (the
configuration error thrown when no shape was supplied) or a
`ParserError`. -/
inductive Thrown where
  | error (msg : String)
  | parserError (e : PError)
deriving DecidableEq, Repr

/-- The message of the configuration error of `validate` in
src/index.ts. -/
def configMessage : String :=
  "Please ensure that the ts-safe-cast transformer is run."

/-- `validate(data, root)` of src/index.ts: throws the configuration error
when `root == null` (before any recursion, so independent of fuel), and
otherwise runs `walk(data, root, 'root')`, returning the validation error
or nothing. -/
def validateRun (fuel : Nat) (data : JSValue) (root : Option Shape) :
    Option (Except Thrown (Option PError)) :=
  match root with
  | none => some (.error (.error configMessage))
  | some r =>
    match walk fuel r data r "root" with
    | none => none
    | some .ok => some (.ok none)
    | some (.err e) => some (.ok (some e))

/-- `is(data, shape)` of src/index.ts: `!validate(data, shape)`; a thrown
error propagates. -/
def is (fuel : Nat) (data : JSValue) (shape : Option Shape) :
    Option (Except Thrown Bool) :=
  match validateRun fuel data shape with
  | none => none
  | some (.error t) => some (.error t)
  | some (.ok none) => some (.ok true)
  | some (.ok (some _)) => some (.ok false)

/-- `cast(data, shape)` of src/index.ts: returns `data` itself when
validation produced no error, and throws the produced error otherwise. -/
def cast (fuel : Nat) (data : JSValue) (shape : Option Shape) :
    Option (Except Thrown JSValue) :=
  match validateRun fuel data shape with
  | none => none
  | some (.error t) => some (.error t)
  | some (.ok none) => some (.ok data)
  | some (.ok (some e)) => some (.error (.parserError e))

/-- `createIs(shape)` of src/index.ts: binds the shape once and defers to
`is` on each call. -/
def createIs (shape : Option Shape) : Nat → JSValue → Option (Except Thrown Bool) :=
  fun fuel data => is fuel data shape

/-- `createCast(shape)` of src/index.ts. -/
def createCast (shape : Option Shape) : Nat → JSValue → Option (Except Thrown JSValue) :=
  fun fuel data => cast fuel data shape

mutual
/-- Does a shape contain no `Reference` node? -/
def refFree : Shape → Bool
  | .string | .number | .boolean | .unknown | .bigint | .date => true
  | .array e => refFree e
  | .tuple items => refFreeItems items
  | .literal _ => true
  | .union opts => refFreeList opts
  | .intersection ms => refFreeList ms
  | .object ms => refFreeMembers ms
  | .reference _ => false

def refFreeList : List Shape → Bool
  | [] => true
  | s :: rest => refFree s && refFreeList rest

def refFreeItems : List TupleItem → Bool
  | [] => true
  | .mk s _ :: rest => refFree s && refFreeItems rest

def refFreeMembers : List ObjectMember → Bool
  | [] => true
  | .property _ s _ :: rest => refFree s && refFreeMembers rest
  | .indexSignature s :: rest => refFree s && refFreeMembers rest
end

mutual
/-- The nesting depth of a shape: 1 for a leaf, 1 + the deepest child
otherwise.  For Reference-free shapes this bounds the recursion depth of
`walk`. -/
def sdepth : Shape → Nat
  | .string | .number | .boolean | .unknown | .bigint | .date => 1
  | .array e => sdepth e + 1
  | .tuple items => sdepthItems items + 1
  | .literal _ => 1
  | .union opts => sdepthList opts + 1
  | .intersection ms => sdepthList ms + 1
  | .object ms => sdepthMembers ms + 1
  | .reference _ => 1

def sdepthList : List Shape → Nat
  | [] => 0
  | s :: rest => max (sdepth s) (sdepthList rest)

def sdepthItems : List TupleItem → Nat
  | [] => 0
  | .mk s _ :: rest => max (sdepth s) (sdepthItems rest)

def sdepthMembers : List ObjectMember → Nat
  | [] => 0
  | .property _ s _ :: rest => max (sdepth s) (sdepthMembers rest)
  | .indexSignature s :: rest => max (sdepth s) (sdepthMembers rest)
end

/-- The value shape carried by an object member. -/
def memberShape : ObjectMember → Shape
  | .property _ s _ => s
  | .indexSignature s => s

/-- The shape carried by a tuple item. -/
def itemShape : TupleItem → Shape
  | .mk s _ => s

/-- The tuple shape `[string?, number]` of the Optional/Required reclaim
examples. -/
def T1 : Shape := .tuple [.mk .string .Optional, .mk .number .Required]

/-- The tuple shape `[number, ...boolean[]]` of the Variable-run
examples. -/
def T2 : Shape := .tuple [.mk .number .Required, .mk .boolean .Variable]

/-- The all-Required tuple shape `[number, string]`. -/
def T3 : Shape := .tuple [.mk .number .Required, .mk .string .Required]

/-- A two-alternative union shape, for the aggregate-error example. -/
def U1 : Shape := .union [.string, .number]

/-- An object shape whose key `a` is covered both by a Property member and
by an IndexSignature member with a different value shape. -/
def O1 : List ObjectMember := [.property "a" .number false, .indexSignature .string]

/-- The self-referential linked-list shape of the spec:
`{value: Number, next: Reference(root)} | null`, with the reference's
(empty) index path resolving to the root itself. -/
def L : Shape :=
  .union [.object [.property "value" .number false,
                   .property "next" (.reference []) false],
          .literal .null]

/-- A well-formed chain of the given depth for `L`, terminated by
`null`. -/
def chain : Nat → JSValue
  | 0 => .null
  | d + 1 => .obj [("value", .num 1), ("next", chain d)]

/-- A chain of the given depth whose terminal is the number `5`, which is
neither `null` nor an object. -/
def badChain : Nat → JSValue
  | 0 => .num 5
  | d + 1 => .obj [("value", .num 1), ("next", badChain d)]

/-! ## Helper lemmas about the tuple loops -/

theorem requiredLoopAux_ok {w : Walker} {elems : List JSValue} {s : Shape}
    {path : String} {mx k mn : Nat}
    (h : w (arrGet elems mn) s (itemPath path mn) = some .ok) :
    requiredLoopAux w elems s path mx k mn
      = some (.inr (mn + 1, if mx ≤ mn + 1 then mn + 1 else mx)) := by
  cases k <;> simp only [requiredLoopAux, h]

theorem requiredLoopAux_err_stop {w : Walker} {elems : List JSValue}
    {s : Shape} {path : String} {mx k mn : Nat} {e : PError}
    (h : w (arrGet elems mn) s (itemPath path mn) = some (.err e))
    (hmx : mx < mn + 1) :
    requiredLoopAux w elems s path mx k mn = some (.inl e) := by
  cases k <;> simp only [requiredLoopAux, h, if_pos hmx]

theorem requiredLoopAux_err_retry {w : Walker} {elems : List JSValue}
    {s : Shape} {path : String} {mx k mn : Nat} {e : PError}
    (h : w (arrGet elems mn) s (itemPath path mn) = some (.err e))
    (hmx : ¬ mx < mn + 1) :
    requiredLoopAux w elems s path mx (k + 1) mn
      = requiredLoopAux w elems s path mx k (mn + 1) := by
  conv_lhs => rw [requiredLoopAux]
  simp only [h, if_neg hmx]

theorem requiredLoop_reclaim {w : Walker} {elems : List JSValue} {s : Shape}
    {path : String} {mn mx p : Nat} (hp1 : mn ≤ p) (hp2 : p ≤ mx)
    (hfail : ∀ q, mn ≤ q → q < p →
      ∃ e, w (arrGet elems q) s (itemPath path q) = some (.err e))
    (hok : w (arrGet elems p) s (itemPath path p) = some .ok) :
    requiredLoop w elems s path mn mx
      = some (.inr (p + 1, if mx ≤ p + 1 then p + 1 else mx)) := by
  unfold requiredLoop
  suffices H : ∀ d mn, mn ≤ p →
      (∀ q, mn ≤ q → q < p →
        ∃ e, w (arrGet elems q) s (itemPath path q) = some (.err e)) →
      p - mn = d →
      requiredLoopAux w elems s path mx (mx - mn) mn
        = some (.inr (p + 1, if mx ≤ p + 1 then p + 1 else mx)) by
    exact H (p - mn) mn hp1 hfail rfl
  intro d
  induction d with
  | zero =>
    intro mn h1 hf hd
    have hmn : mn = p := by omega
    subst hmn
    exact requiredLoopAux_ok hok
  | succ d ih =>
    intro mn h1 hf hd
    have hlt : mn < p := by omega
    obtain ⟨e, he⟩ := hf mn le_rfl hlt
    have hk : mx - mn = (mx - (mn + 1)) + 1 := by omega
    rw [hk, requiredLoopAux_err_retry he (by omega)]
    have hk' : mx - (mn + 1) = mx - (mn + 1) := rfl
    have := ih (mn + 1) (by omega) (fun q hq1 hq2 => hf q (by omega) hq2) (by omega)
    exact this

theorem requiredLoop_exhaust {w : Walker} {elems : List JSValue} {s : Shape}
    {path : String} {mn mx : Nat} (E : Nat → PError) (hmn : mn ≤ mx)
    (hfail : ∀ q, mn ≤ q → q ≤ mx →
      w (arrGet elems q) s (itemPath path q) = some (.err (E q))) :
    requiredLoop w elems s path mn mx = some (.inl (E mx)) := by
  unfold requiredLoop
  suffices H : ∀ d mn, mn ≤ mx →
      (∀ q, mn ≤ q → q ≤ mx →
        w (arrGet elems q) s (itemPath path q) = some (.err (E q))) →
      mx - mn = d →
      requiredLoopAux w elems s path mx (mx - mn) mn = some (.inl (E mx)) by
    exact H (mx - mn) mn hmn hfail rfl
  intro d
  induction d with
  | zero =>
    intro mn h1 hf hd
    have hmn' : mn = mx := by omega
    subst hmn'
    exact requiredLoopAux_err_stop (hf mn le_rfl le_rfl) (by omega)
  | succ d ih =>
    intro mn h1 hf hd
    have he := hf mn le_rfl (by omega)
    have hk : mx - mn = (mx - (mn + 1)) + 1 := by omega
    rw [hk, requiredLoopAux_err_retry he (by omega)]
    exact ih (mn + 1) (by omega) (fun q hq1 hq2 => hf q (by omega) hq2) (by omega)

theorem varLoopAux_stop {w : Walker} {elems : List JSValue} {s : Shape}
    {path : String} {k mx : Nat} {e : PError}
    (h : w (arrGet elems mx) s (itemPath path mx) = some (.err e)) :
    varLoopAux w elems s path (k + 1) mx = some mx := by
  simp only [varLoopAux, h]

theorem varLoopAux_step {w : Walker} {elems : List JSValue} {s : Shape}
    {path : String} {k mx : Nat}
    (h : w (arrGet elems mx) s (itemPath path mx) = some .ok) :
    varLoopAux w elems s path (k + 1) mx
      = varLoopAux w elems s path k (mx + 1) := by
  simp only [varLoopAux, h]

/-- The Variable loop runs greedily: starting at frontier `mx`, if every
position strictly below `mx'` tests successfully and `mx'` is the data
length or a failing position, the loop stops exactly at `mx'`. -/
theorem varLoop_run {w : Walker} {elems : List JSValue} {s : Shape}
    {path : String} {mx mx' : Nat} (h1 : mx ≤ mx') (h2 : mx' ≤ elems.length)
    (hok : ∀ q, mx ≤ q → q < mx' →
      w (arrGet elems q) s (itemPath path q) = some .ok)
    (hstop : mx' = elems.length ∨
      ∃ e, w (arrGet elems mx') s (itemPath path mx') = some (.err e)) :
    varLoop w elems s path mx = some mx' := by
  unfold varLoop
  suffices H : ∀ d mx, mx ≤ mx' →
      (∀ q, mx ≤ q → q < mx' →
        w (arrGet elems q) s (itemPath path q) = some .ok) →
      mx' - mx = d →
      varLoopAux w elems s path (elems.length - mx) mx = some mx' by
    exact H (mx' - mx) mx h1 hok rfl
  intro d
  induction d with
  | zero =>
    intro mx hm1 hko hd
    have hmx : mx = mx' := by omega
    subst hmx
    rcases hstop with hlen | ⟨e, he⟩
    · have h0 : elems.length - mx = 0 := by omega
      rw [h0]
      rfl
    · rcases hk : elems.length - mx with _ | k
      · rfl
      · exact varLoopAux_stop he
  | succ d ih =>
    intro mx hm1 hko hd
    have hlt : mx < mx' := by omega
    have hk : elems.length - mx = (elems.length - (mx + 1)) + 1 := by omega
    rw [hk, varLoopAux_step (hko mx le_rfl hlt)]
    exact ih (mx + 1) (by omega) (fun q hq1 hq2 => hko q (by omega) hq2) (by omega)

/-- The Optional step claims at most one element, and advances the
frontier exactly when the frontier is inside the data and the single test
succeeds. -/
theorem optionalStep_once {w : Walker} {elems : List JSValue} {s : Shape}
    {path : String} {mx : Nat} :
    (∀ mx', optionalStep w elems s path mx = some mx' →
      mx ≤ mx' ∧ mx' ≤ mx + 1) ∧
    (optionalStep w elems s path mx = some (mx + 1) ↔
      mx < elems.length ∧
        w (arrGet elems mx) s (itemPath path mx) = some .ok) := by
  constructor
  · intro mx' h
    unfold optionalStep at h
    split at h
    · rcases hw : w (arrGet elems mx) s (itemPath path mx) with _ | r
      · rw [hw] at h; cases h
      · rw [hw] at h
        cases r <;> simp_all
        omega
    · simp_all
  · constructor
    · intro h
      unfold optionalStep at h
      split at h
      · rcases hw : w (arrGet elems mx) s (itemPath path mx) with _ | r
        · rw [hw] at h; cases h
        · rw [hw] at h
          cases r <;> simp_all
      · simp_all
    · rintro ⟨h1, h2⟩
      unfold optionalStep
      rw [if_pos h1, h2]

/-- With shape `.unknown` every element test succeeds at one unit of
fuel, so a run of Required-Unknown items advances both cursors in
lockstep. -/
theorem tupleItems_unknown (root : Shape) (elems : List JSValue)
    (path : String) :
    ∀ k mn, tupleItems (fun d s p => walk 1 root d s p) elems path
      (List.replicate k (.mk .unknown .Required)) mn mn
      = some (.inr (mn + k, mn + k)) := by
  intro k
  induction k with
  | zero =>
    intro mn
    simp [tupleItems]
  | succ k ih =>
    intro mn
    rw [List.replicate_succ]
    have hok : walk 1 root (arrGet elems mn) .unknown (itemPath path mn)
        = some .ok := rfl
    have hreq : requiredLoop (fun d s p => walk 1 root d s p) elems .unknown
        path mn mn = some (.inr (mn + 1, mn + 1)) := by
      unfold requiredLoop
      rw [requiredLoopAux_ok hok]
      simp
    simp only [tupleItems, hreq]
    rw [ih (mn + 1)]
    have harith : mn + 1 + k = mn + (k + 1) := by omega
    rw [harith]

/-- A tuple of `k` Required-Unknown items accepts any array of at most
`k` elements: both cursors finish at `k`, at or past the data length. -/
theorem walk_unknown_tuple (root : Shape) (elems : List JSValue)
    (path : String) (k : Nat) (hk : elems.length ≤ k) :
    walk 2 root (.arr elems)
      (.tuple (List.replicate k (.mk .unknown .Required))) path
      = some .ok := by
  show tupleCase (fun d s p => walk 1 root d s p) (.arr elems)
      (List.replicate k (.mk .unknown .Required)) path = some .ok
  simp only [tupleCase]
  rw [tupleItems_unknown]
  simp only [Nat.zero_add]
  rw [if_neg (by omega)]

/-! ## The claims about the tuple matcher -/

/-- C1: when a Required item's test at the committed cursor fails, the
committed cursor advances and the item is retried as long as the committed
cursor has not exceeded the frontier, so a Required item can reclaim an
element a greedy Optional/Variable item over-consumed; the tuple fails with
the failing element's error (the one at the frontier) only once the
committed cursor exceeds the frontier.  Concretely, for
`[String?, Number]`, `[5]` and `["a", 5]` validate and `["a", "b"]` fails
with the element error at index 1. -/
theorem tuple_required_reclaims_overconsumed :
    (∀ (w : Walker) (elems : List JSValue) (s : Shape) (path : String)
        (mn mx p : Nat), mn ≤ p → p ≤ mx →
      (∀ q, mn ≤ q → q < p →
        ∃ e, w (arrGet elems q) s (itemPath path q) = some (.err e)) →
      w (arrGet elems p) s (itemPath path p) = some .ok →
      requiredLoop w elems s path mn mx
        = some (.inr (p + 1, if mx ≤ p + 1 then p + 1 else mx))) ∧
    (∀ (w : Walker) (elems : List JSValue) (s : Shape) (path : String)
        (mn mx : Nat) (E : Nat → PError), mn ≤ mx →
      (∀ q, mn ≤ q → q ≤ mx →
        w (arrGet elems q) s (itemPath path q) = some (.err (E q))) →
      requiredLoop w elems s path mn mx = some (.inl (E mx))) ∧
    walk 5 T1 (.arr [.num 5]) T1 "root" = some .ok ∧
    walk 5 T1 (.arr [.str "a", .num 5]) T1 "root" = some .ok ∧
    walk 5 T1 (.arr [.str "a", .str "b"]) T1 "root"
      = some (.err (fail (itemPath "root" 1) "a number" (.str "b"))) :=
  ⟨fun _ _ _ _ _ _ _ hp1 hp2 hfail hok =>
      requiredLoop_reclaim hp1 hp2 hfail hok,
   fun _ _ _ _ _ _ E hmn hfail => requiredLoop_exhaust E hmn hfail,
   rfl, rfl, rfl⟩

theorem tuple_required_reclaims_overconsumed_w :
    requiredLoop (fun _ _ _ => some (.err ⟨"boom"⟩)) [] .number "p" 0 0
      = some (.inl ⟨"boom"⟩) :=
  tuple_required_reclaims_overconsumed.2.1
    (fun _ _ _ => some (.err ⟨"boom"⟩)) [] .number "p" 0 0
    (fun _ => ⟨"boom"⟩) (Nat.le_refl 0) (fun _ _ _ => rfl)

/-- C2: a Variable item greedily tests successive elements at the
frontier, advancing on each success and stopping at the first failure or
the data length; an Optional item claims at most one element, advancing
the frontier exactly when its single in-bounds test succeeds.  Concretely,
for `[Number, ...Boolean[]]`, `[1]` and `[1, true, false]` validate and
`[1, true, 2]` fails as a tuple because the run stops at the non-boolean,
leaving it unmatched. -/
theorem tuple_variable_greedy_optional_once :
    (∀ (w : Walker) (elems : List JSValue) (s : Shape) (path : String)
        (mx mx' : Nat), mx ≤ mx' → mx' ≤ elems.length →
      (∀ q, mx ≤ q → q < mx' →
        w (arrGet elems q) s (itemPath path q) = some .ok) →
      (mx' = elems.length ∨
        ∃ e, w (arrGet elems mx') s (itemPath path mx') = some (.err e)) →
      varLoop w elems s path mx = some mx') ∧
    (∀ (w : Walker) (elems : List JSValue) (s : Shape) (path : String)
        (mx : Nat),
      (∀ mx', optionalStep w elems s path mx = some mx' →
        mx ≤ mx' ∧ mx' ≤ mx + 1) ∧
      (optionalStep w elems s path mx = some (mx + 1) ↔
        mx < elems.length ∧
          w (arrGet elems mx) s (itemPath path mx) = some .ok)) ∧
    walk 5 T2 (.arr [.num 1]) T2 "root" = some .ok ∧
    walk 5 T2 (.arr [.num 1, .boolean true, .boolean false]) T2 "root"
      = some .ok ∧
    walk 5 T2 (.arr [.num 1, .boolean true, .num 2]) T2 "root"
      = some (.err (fail "root" "a tuple"
          (.arr [.num 1, .boolean true, .num 2]))) :=
  ⟨fun _ _ _ _ _ _ h1 h2 hok hstop => varLoop_run h1 h2 hok hstop,
   fun _ _ _ _ _ => optionalStep_once,
   rfl, rfl, rfl⟩

theorem tuple_variable_greedy_optional_once_w :
    varLoop (fun _ _ _ => some .ok) [.null] .unknown "p" 0 = some 1 :=
  tuple_variable_greedy_optional_once.1
    (fun _ _ _ => some .ok) [.null] .unknown "p" 0 1
    (Nat.zero_le 1) (Nat.le_refl 1) (fun _ _ _ => rfl) (Or.inl rfl)

/-- C3: after all items, the tuple fails exactly when the frontier is
still short of the data length; there is no explicit length check for
short data — `[Number, String]` on `[1]` fails through the ordinary
element mismatch on the absent value read past the end (the error at index
1 reports `undefined`), and since an absent value matches `Unknown`, a
tuple of Required-Unknown items accepts any shorter (even empty) data
array. -/
theorem tuple_trailing_and_short_data :
    (∀ (w : Walker) (elems : List JSValue) (items : List TupleItem)
        (path : String),
      tupleCase w (.arr elems) items path = some .ok →
      ∃ mn mx, tupleItems w elems path items 0 0 = some (.inr (mn, mx)) ∧
        elems.length ≤ mx) ∧
    walk 5 T3 (.arr [.num 1, .str "a"]) T3 "root" = some .ok ∧
    walk 5 T3 (.arr [.num 1, .str "a", .num 2]) T3 "root"
      = some (.err (fail "root" "a tuple"
          (.arr [.num 1, .str "a", .num 2]))) ∧
    walk 5 T3 (.arr [.num 1]) T3 "root"
      = some (.err (fail (itemPath "root" 1) "a string" .undefined)) ∧
    (∀ (root : Shape) (elems : List JSValue) (path : String) (k : Nat),
      elems.length ≤ k →
      walk 2 root (.arr elems)
        (.tuple (List.replicate k (.mk .unknown .Required))) path
        = some .ok) := by
  refine ⟨?_, rfl, rfl, rfl, fun root elems path k hk =>
    walk_unknown_tuple root elems path k hk⟩
  intro w elems items path h
  simp only [tupleCase] at h
  rcases ht : tupleItems w elems path items 0 0 with _ | r
  · rw [ht] at h; cases h
  · rw [ht] at h
    rcases r with e | ⟨mn, mx⟩
    · simp at h
    · replace h : (if mx < elems.length then
          some (WalkResult.err (fail path "a tuple" (JSValue.arr elems)))
        else some WalkResult.ok) = some WalkResult.ok := h
      refine ⟨mn, mx, rfl, ?_⟩
      by_contra hlt
      rw [if_pos (by omega)] at h
      simp at h

theorem tuple_trailing_and_short_data_w :
    walk 2 .unknown (.arr [])
      (.tuple (List.replicate 2 (.mk .unknown .Required))) "root"
      = some .ok :=
  tuple_trailing_and_short_data.2.2.2.2 .unknown [] "root" 2 (by decide)

/-! ## Helper lemmas about the union, intersection and object loops -/

theorem unionLoop_first_success {w : Walker} {data : JSValue} {path : String} :
    ∀ (pre : List Shape) (o : Shape) (post : List Shape) (errs : List PError),
      (∀ o' ∈ pre, ∃ e, w data o' path = some (.err e)) →
      w data o path = some .ok →
      unionLoop w data path (pre ++ o :: post) errs = some .ok := by
  intro pre
  induction pre with
  | nil =>
    intro o post errs _ hok
    simp only [List.nil_append, unionLoop, hok]
  | cons o' rest ih =>
    intro o post errs hpre hok
    obtain ⟨e, he⟩ := hpre o' (by simp)
    simp only [List.cons_append, unionLoop, he]
    exact ih o post (errs ++ [e]) (fun x hx => hpre x (by simp [hx])) hok

theorem unionLoop_all_fail {w : Walker} {data : JSValue} {path : String} :
    ∀ (opts : List Shape) (es errs : List PError),
      List.Forall₂ (fun o e => w data o path = some (.err e)) opts es →
      unionLoop w data path opts errs
        = some (.err (unionFail path (errs ++ es))) := by
  intro opts
  induction opts with
  | nil =>
    intro es errs h
    cases h
    simp [unionLoop]
  | cons o rest ih =>
    intro es errs h
    cases h with
    | cons he htail =>
      simp only [unionLoop, he]
      rw [ih _ _ htail]
      simp

theorem unionLoop_ok_iff {w : Walker} {data : JSValue} {path : String} :
    ∀ (opts : List Shape) (errs : List PError),
      (∀ o ∈ opts, ∃ r, w data o path = some r) →
      (unionLoop w data path opts errs = some .ok ↔
        ∃ o ∈ opts, w data o path = some .ok) := by
  intro opts
  induction opts with
  | nil =>
    intro errs _
    simp [unionLoop]
  | cons o rest ih =>
    intro errs htot
    obtain ⟨r, hr⟩ := htot o (by simp)
    cases r with
    | ok =>
      simp only [unionLoop, hr]
      constructor
      · intro _
        exact ⟨o, by simp, hr⟩
      · intro _
        trivial
    | err e =>
      simp only [unionLoop, hr]
      rw [ih (errs ++ [e]) (fun x hx => htot x (by simp [hx]))]
      constructor
      · rintro ⟨x, hx, hxo⟩
        exact ⟨x, by simp [hx], hxo⟩
      · rintro ⟨x, hx, hxo⟩
        rcases List.mem_cons.mp hx with rfl | hx'
        · rw [hr] at hxo
          cases hxo
        · exact ⟨x, hx', hxo⟩

theorem interLoop_first_failure {w : Walker} {data : JSValue} {path : String} :
    ∀ (pre : List Shape) (m : Shape) (post : List Shape) (e : PError),
      (∀ m' ∈ pre, w data m' path = some .ok) →
      w data m path = some (.err e) →
      interLoop w data path (pre ++ m :: post) = some (.err e) := by
  intro pre
  induction pre with
  | nil =>
    intro m post e _ herr
    simp only [List.nil_append, interLoop, herr]
  | cons m' rest ih =>
    intro m post e hpre herr
    have hok := hpre m' (by simp)
    simp only [List.cons_append, interLoop, hok]
    exact ih m post e (fun x hx => hpre x (by simp [hx])) herr

theorem indexLoop_ok_covers {w : Walker} {data : JSValue} {s : Shape}
    {path : String} :
    ∀ keys, indexLoop w data s path keys = some none →
      ∀ k ∈ keys, w (getProp data k) s (keyPath path k) = some .ok := by
  intro keys
  induction keys with
  | nil =>
    intro _ k hk
    cases hk
  | cons k0 rest ih =>
    intro h k hk
    rcases hw : w (getProp data k0) s (keyPath path k0) with _ | r
    · simp [indexLoop, hw] at h
    · cases r with
      | ok =>
        simp only [indexLoop, hw] at h
        rcases List.mem_cons.mp hk with rfl | hk'
        · exact hw
        · exact ih h k hk'
      | err e =>
        simp [indexLoop, hw] at h

/-! ## Helper lemmas about Reference resolution and the chain shapes -/

/-- Unfolding the Reference case of `walk`: a resolvable path recurses
into the resolved shape with the same data and the same path. -/
theorem walk_reference_unfold (fuel : Nat) (root : Shape) (data : JSValue)
    (p : List Nat) (path : String) (t : Shape)
    (h : resolvePath root p = some t) :
    walk (fuel + 1) root data (.reference p) path
      = walk fuel root data t path := by
  show (resolvePath root p).elim none
    (fun target => walk fuel root data target path) = walk fuel root data t path
  rw [h]
  rfl

/-- A well-formed chain of any depth validates against `L`, with fuel
linear in the depth. -/
theorem chain_ok : ∀ d path, walk (3 * d + 3) L (chain d) L path = some .ok := by
  intro d
  induction d with
  | zero =>
    intro path
    rfl
  | succ d ih =>
    intro path
    have hval : walk (3 * d + 4) L (.num 1) .number (keyPath path "value")
        = some .ok := rfl
    have hnext : walk (3 * d + 4) L (chain d) (.reference [])
        (keyPath path "next") = some .ok := by
      rw [show walk (3 * d + 4) L (chain d) (.reference []) (keyPath path "next")
        = walk (3 * d + 3) L (chain d) L (keyPath path "next") from rfl]
      exact ih (keyPath path "next")
    have hml : memberLoop (fun d' s p => walk (3 * d + 4) L d' s p)
        (.obj [("value", .num 1), ("next", chain d)]) path
        [.property "value" .number false,
         .property "next" (.reference []) false] = some none := by
      simp only [memberLoop]
      rw [show hasKey (JSValue.obj [("value", JSValue.num 1), ("next", chain d)])
        "value" = true from rfl]
      rw [show getProp (JSValue.obj [("value", JSValue.num 1), ("next", chain d)])
        "value" = JSValue.num 1 from rfl]
      rw [hval]
      rw [show hasKey (JSValue.obj [("value", JSValue.num 1), ("next", chain d)])
        "next" = true from rfl]
      rw [show getProp (JSValue.obj [("value", JSValue.num 1), ("next", chain d)])
        "next" = chain d from rfl]
      rw [hnext]
      rfl
    have hobj : walk (3 * d + 5) L
        (.obj [("value", .num 1), ("next", chain d)])
        (.object [.property "value" .number false,
                  .property "next" (.reference []) false]) path = some .ok := by
      rw [show walk (3 * d + 5) L
          (.obj [("value", JSValue.num 1), ("next", chain d)])
          (.object [.property "value" .number false,
                    .property "next" (.reference []) false]) path
        = objectCase (fun d' s p => walk (3 * d + 4) L d' s p)
          (.obj [("value", JSValue.num 1), ("next", chain d)])
          [.property "value" .number false,
           .property "next" (.reference []) false] path from rfl]
      simp only [objectCase]
      rw [show isObjectLike
        (JSValue.obj [("value", JSValue.num 1), ("next", chain d)])
        = true from rfl]
      rw [hml]
      rfl
    have hfuel : 3 * (d + 1) + 3 = 3 * d + 6 := by ring
    rw [hfuel]
    rw [show chain (d + 1)
      = .obj [("value", JSValue.num 1), ("next", chain d)] from rfl]
    rw [show walk (3 * d + 6) L
        (.obj [("value", JSValue.num 1), ("next", chain d)]) L path
      = unionCase (fun d' s p => walk (3 * d + 5) L d' s p)
        (.obj [("value", JSValue.num 1), ("next", chain d)])
        [.object [.property "value" .number false,
                  .property "next" (.reference []) false],
         .literal .null] path from rfl]
    simp only [unionCase, unionLoop]
    rw [hobj]

/-- A chain whose terminal is the number `5` is rejected by `L` at every
depth (with the same linear fuel). -/
theorem badChain_err :
    ∀ d path, ∃ e, walk (3 * d + 3) L (badChain d) L path = some (.err e) := by
  intro d
  induction d with
  | zero =>
    intro path
    exact ⟨unionFail path
      [fail path "an object" (.num 5), fail path "null" (.num 5)], rfl⟩
  | succ d ih =>
    intro path
    obtain ⟨e', he'⟩ := ih (keyPath path "next")
    have hval : walk (3 * d + 4) L (.num 1) .number (keyPath path "value")
        = some .ok := rfl
    have hnext : walk (3 * d + 4) L (badChain d) (.reference [])
        (keyPath path "next") = some (.err e') := by
      rw [show walk (3 * d + 4) L (badChain d) (.reference [])
          (keyPath path "next")
        = walk (3 * d + 3) L (badChain d) L (keyPath path "next") from rfl]
      exact he'
    have hml : memberLoop (fun d' s p => walk (3 * d + 4) L d' s p)
        (.obj [("value", .num 1), ("next", badChain d)]) path
        [.property "value" .number false,
         .property "next" (.reference []) false] = some (some e') := by
      simp only [memberLoop]
      rw [show hasKey
        (JSValue.obj [("value", JSValue.num 1), ("next", badChain d)])
        "value" = true from rfl]
      rw [show getProp
        (JSValue.obj [("value", JSValue.num 1), ("next", badChain d)])
        "value" = JSValue.num 1 from rfl]
      rw [hval]
      rw [show hasKey
        (JSValue.obj [("value", JSValue.num 1), ("next", badChain d)])
        "next" = true from rfl]
      rw [show getProp
        (JSValue.obj [("value", JSValue.num 1), ("next", badChain d)])
        "next" = badChain d from rfl]
      rw [hnext]
      rfl
    have hobj : walk (3 * d + 5) L
        (.obj [("value", .num 1), ("next", badChain d)])
        (.object [.property "value" .number false,
                  .property "next" (.reference []) false]) path
        = some (.err e') := by
      rw [show walk (3 * d + 5) L
          (.obj [("value", JSValue.num 1), ("next", badChain d)])
          (.object [.property "value" .number false,
                    .property "next" (.reference []) false]) path
        = objectCase (fun d' s p => walk (3 * d + 4) L d' s p)
          (.obj [("value", JSValue.num 1), ("next", badChain d)])
          [.property "value" .number false,
           .property "next" (.reference []) false] path from rfl]
      simp only [objectCase]
      rw [show isObjectLike
        (JSValue.obj [("value", JSValue.num 1), ("next", badChain d)])
        = true from rfl]
      rw [hml]
      rfl
    have hlit : walk (3 * d + 5) L
        (.obj [("value", .num 1), ("next", badChain d)]) (.literal .null) path
        = some (.err (fail path "null"
            (.obj [("value", .num 1), ("next", badChain d)]))) := rfl
    refine ⟨unionFail path
      [e', fail path "null"
        (.obj [("value", .num 1), ("next", badChain d)])], ?_⟩
    have hfuel : 3 * (d + 1) + 3 = 3 * d + 6 := by ring
    rw [hfuel]
    rw [show badChain (d + 1)
      = .obj [("value", JSValue.num 1), ("next", badChain d)] from rfl]
    rw [show walk (3 * d + 6) L
        (.obj [("value", JSValue.num 1), ("next", badChain d)]) L path
      = unionCase (fun d' s p => walk (3 * d + 5) L d' s p)
        (.obj [("value", JSValue.num 1), ("next", badChain d)])
        [.object [.property "value" .number false,
                  .property "next" (.reference []) false],
         .literal .null] path from rfl]
    simp only [unionCase, unionLoop]
    rw [hobj, hlit]
    rfl

/-- C8: a Reference shape is resolved by indexing positionally from the
root shape, and the matcher recurses into the resolved node with the same
data value and the same caller-side path string; consequently the
self-referential shape `L` (whose reference's empty path resolves back to
the root) validates arbitrarily deep finite chains and rejects a chain
whose terminal is neither null nor an object. -/
theorem reference_resolution_and_chains :
    (∀ (fuel : Nat) (root : Shape) (data : JSValue) (p : List Nat)
        (path : String) (t : Shape),
      resolvePath root p = some t →
      walk (fuel + 1) root data (.reference p) path
        = walk fuel root data t path) ∧
    resolvePath L [] = some L ∧
    (∀ d path, walk (3 * d + 3) L (chain d) L path = some .ok) ∧
    (∀ d path, ∃ e, walk (3 * d + 3) L (badChain d) L path = some (.err e)) :=
  ⟨fun fuel root data p path t h =>
      walk_reference_unfold fuel root data p path t h,
   rfl, chain_ok, badChain_err⟩

theorem reference_resolution_and_chains_w :
    walk 2 L .null (.reference []) "root" = walk 1 L .null L "root" :=
  reference_resolution_and_chains.1 1 L .null [] "root" L rfl

/-! ## The claims about union and object handling -/

/-- C6: union alternatives are tried in declared order, the first success
stops traversal with overall success (whatever comes after), success holds
iff at least one alternative matches, and when every alternative fails the
result is the single aggregate error at the union's own path listing each
alternative's failure in declared order — while the intersection loop (like
the other composite cases) propagates the first failure as-is, without
aggregation. -/
theorem union_first_success_and_aggregate :
    (∀ (w : Walker) (data : JSValue) (path : String) (pre : List Shape)
        (o : Shape) (post : List Shape),
      (∀ o' ∈ pre, ∃ e, w data o' path = some (.err e)) →
      w data o path = some .ok →
      unionCase w data (pre ++ o :: post) path = some .ok) ∧
    (∀ (w : Walker) (data : JSValue) (path : String) (opts : List Shape)
        (es : List PError),
      List.Forall₂ (fun o e => w data o path = some (.err e)) opts es →
      unionCase w data opts path = some (.err (unionFail path es))) ∧
    (∀ (fuel : Nat) (root : Shape) (data : JSValue) (opts : List Shape)
        (path : String),
      (∀ o ∈ opts, ∃ r, walk fuel root data o path = some r) →
      (walk (fuel + 1) root data (.union opts) path = some .ok ↔
        ∃ o ∈ opts, walk fuel root data o path = some .ok)) ∧
    (∀ (w : Walker) (data : JSValue) (path : String) (pre : List Shape)
        (m : Shape) (post : List Shape) (e : PError),
      (∀ m' ∈ pre, w data m' path = some .ok) →
      w data m path = some (.err e) →
      interLoop w data path (pre ++ m :: post) = some (.err e)) ∧
    walk 2 U1 (.boolean true) U1 "root"
      = some (.err (unionFail "root"
          [fail "root" "a string" (.boolean true),
           fail "root" "a number" (.boolean true)])) := by
  refine ⟨?_, ?_, ?_, ?_, rfl⟩
  · intro w data path pre o post hpre hok
    exact unionLoop_first_success pre o post [] hpre hok
  · intro w data path opts es hall
    have h := unionLoop_all_fail opts es [] hall
    rwa [List.nil_append] at h
  · intro fuel root data opts path htot
    exact unionLoop_ok_iff opts [] htot
  · intro w data path pre m post e hpre herr
    exact interLoop_first_failure pre m post e hpre herr

theorem union_first_success_and_aggregate_w :
    unionCase (fun _ _ _ => some .ok) .null [Shape.number] "root" = some .ok :=
  union_first_success_and_aggregate.1 (fun _ _ _ => some .ok) .null "root"
    [] .number [] (by simp) rfl

/-- C7: object members are processed in declared order; a Property member
with an absent key fails with the "expected defined" error unless optional,
in which case it is skipped silently; a present key's value is walked and
its failure propagates; an IndexSignature member checks the value of every
key actually present on the record, including a key already checked by a
Property member — concretely, `{a: 5}` passes the Property `a : Number`
alone, yet fails `[a : Number, index : String]` at `root.a` because the
index shape independently re-checks key `a`. -/
theorem object_members_property_index_signature :
    (∀ (w : Walker) (data : JSValue) (path key : String) (s : Shape)
        (rest : List ObjectMember),
      hasKey data key = false →
      memberLoop w data path (.property key s false :: rest)
        = some (some (fail (keyPath path key) "defined" (.str "undefined")))) ∧
    (∀ (w : Walker) (data : JSValue) (path key : String) (s : Shape)
        (rest : List ObjectMember),
      hasKey data key = false →
      memberLoop w data path (.property key s true :: rest)
        = memberLoop w data path rest) ∧
    (∀ (w : Walker) (data : JSValue) (path key : String) (s : Shape)
        (opt : Bool) (rest : List ObjectMember) (e : PError),
      hasKey data key = true →
      w (getProp data key) s (keyPath path key) = some (.err e) →
      memberLoop w data path (.property key s opt :: rest) = some (some e)) ∧
    (∀ (w : Walker) (data : JSValue) (path : String) (s : Shape)
        (rest : List ObjectMember),
      memberLoop w data path (.indexSignature s :: rest) = some none →
      ∀ k ∈ ownEnumKeys data,
        w (getProp data k) s (keyPath path k) = some .ok) ∧
    walk 2 (.object O1) (.obj [("a", .num 5)])
      (.object [.property "a" .number false]) "root" = some .ok ∧
    walk 2 (.object O1) (.obj [("a", .num 5)]) (.object O1) "root"
      = some (.err (fail (keyPath "root" "a") "a string" (.num 5))) := by
  refine ⟨?_, ?_, ?_, ?_, rfl, rfl⟩
  · intro w data path key s rest h
    simp [memberLoop, h]
  · intro w data path key s rest h
    simp [memberLoop, h]
  · intro w data path key s opt rest e hk he
    simp [memberLoop, hk, he]
  · intro w data path s rest h
    rcases hi : indexLoop w data s path (ownEnumKeys data) with _ | r
    · simp [memberLoop, hi] at h
    · rcases r with _ | e
      · exact indexLoop_ok_covers _ hi
      · simp [memberLoop, hi] at h

theorem object_members_property_index_signature_w :
    memberLoop (fun _ _ _ => some .ok) (.obj []) "root"
      [.property "k" .number false]
      = some (some (fail (keyPath "root" "k") "defined" (.str "undefined"))) :=
  object_members_property_index_signature.1 (fun _ _ _ => some .ok)
    (.obj []) "root" "k" .number [] rfl

/-! ## The claims about the public surface -/

/-- C4: with a supplied shape, `cast` returns normally exactly when `is`
returns true; on success `cast` returns the data argument itself,
unmodified; on mismatch `cast` throws the validation error the matcher
produced while `is` returns false, and `is` never throws. -/
theorem cast_is_agreement :
    ∀ (fuel : Nat) (data : JSValue) (s : Shape),
      (∀ v, cast fuel data (some s) = some (.ok v) → v = data) ∧
      (cast fuel data (some s) = some (.ok data) ↔
        is fuel data (some s) = some (.ok true)) ∧
      (∀ e, validateRun fuel data (some s) = some (.ok (some e)) →
        is fuel data (some s) = some (.ok false) ∧
        cast fuel data (some s) = some (.error (.parserError e))) ∧
      (∀ r, is fuel data (some s) = some r → ∃ b, r = .ok b) := by
  intro fuel data s
  rcases hw : walk fuel s data s "root" with _ | r
  · simp [is, cast, validateRun, hw]
  · rcases r with _ | e
    · simp [is, cast, validateRun, hw]
    · simp [is, cast, validateRun, hw]

theorem cast_is_agreement_w :
    cast 1 (.num 1) (some .number) = some (.ok (.num 1)) :=
  ((cast_is_agreement 1 (.num 1) .number).2.1).mpr rfl

/-- C5: when no shape is supplied, every entry point — `is`, `cast`, and
the functions returned by `createIs` and `createCast` — throws the
configuration error on every call (even at zero fuel: the check precedes
any recursion), an outcome distinct from a `false` result and from a
thrown `ParserError`. -/
theorem missing_shape_config_error :
    ∀ (fuel : Nat) (data : JSValue),
      is fuel data none = some (.error (.error configMessage)) ∧
      cast fuel data none = some (.error (.error configMessage)) ∧
      createIs none fuel data = some (.error (.error configMessage)) ∧
      createCast none fuel data = some (.error (.error configMessage)) ∧
      (∀ e, Thrown.error configMessage ≠ Thrown.parserError e) ∧
      (∀ b, is fuel data none ≠ some (.ok b)) := by
  intro fuel data
  refine ⟨rfl, rfl, rfl, rfl, fun e h => Thrown.noConfusion h, fun b h => ?_⟩
  rw [show is fuel data none
    = some (.error (.error configMessage)) from rfl] at h
  simp at h

theorem missing_shape_config_error_w :
    is 0 .null none = some (.error (.error configMessage)) ∧
    Thrown.error configMessage ≠ Thrown.parserError ⟨"x"⟩ :=
  ⟨(missing_shape_config_error 0 .null).1,
   (missing_shape_config_error 0 .null).2.2.2.2.1 ⟨"x"⟩⟩

/-! ## Helper lemmas for the termination claim -/

theorem sdepth_pos : ∀ s, 0 < sdepth s := by
  intro s
  cases s <;> simp [sdepth]

theorem refFreeList_mem : ∀ (l : List Shape), refFreeList l = true →
    ∀ s ∈ l, refFree s = true := by
  intro l
  induction l with
  | nil =>
    intro _ s hs
    cases hs
  | cons x rest ih =>
    intro h s hs
    simp only [refFreeList, Bool.and_eq_true] at h
    rcases List.mem_cons.mp hs with rfl | hs'
    · exact h.1
    · exact ih h.2 s hs'

theorem sdepthList_mem : ∀ (l : List Shape), ∀ s ∈ l,
    sdepth s ≤ sdepthList l := by
  intro l
  induction l with
  | nil =>
    intro s hs
    cases hs
  | cons x rest ih =>
    intro s hs
    simp only [sdepthList]
    rcases List.mem_cons.mp hs with rfl | hs'
    · exact le_max_left _ _
    · exact le_trans (ih s hs') (le_max_right _ _)

theorem refFreeItems_mem : ∀ (l : List TupleItem), refFreeItems l = true →
    ∀ it ∈ l, refFree (itemShape it) = true := by
  intro l
  induction l with
  | nil =>
    intro _ it hit
    cases hit
  | cons x rest ih =>
    intro h it hit
    rcases x with ⟨s, t⟩
    simp only [refFreeItems, Bool.and_eq_true] at h
    rcases List.mem_cons.mp hit with rfl | hit'
    · exact h.1
    · exact ih h.2 it hit'

theorem sdepthItems_mem : ∀ (l : List TupleItem), ∀ it ∈ l,
    sdepth (itemShape it) ≤ sdepthItems l := by
  intro l
  induction l with
  | nil =>
    intro it hit
    cases hit
  | cons x rest ih =>
    intro it hit
    rcases x with ⟨s, t⟩
    simp only [sdepthItems]
    rcases List.mem_cons.mp hit with rfl | hit'
    · exact le_max_left _ _
    · exact le_trans (ih it hit') (le_max_right _ _)

theorem refFreeMembers_mem : ∀ (l : List ObjectMember),
    refFreeMembers l = true → ∀ m ∈ l, refFree (memberShape m) = true := by
  intro l
  induction l with
  | nil =>
    intro _ m hm
    cases hm
  | cons x rest ih =>
    intro h m hm
    rcases List.mem_cons.mp hm with rfl | hm'
    · cases m with
      | property k s opt =>
        simp only [refFreeMembers, Bool.and_eq_true] at h
        exact h.1
      | indexSignature s =>
        simp only [refFreeMembers, Bool.and_eq_true] at h
        exact h.1
    · cases x with
      | property k s opt =>
        simp only [refFreeMembers, Bool.and_eq_true] at h
        exact ih h.2 m hm'
      | indexSignature s =>
        simp only [refFreeMembers, Bool.and_eq_true] at h
        exact ih h.2 m hm'

theorem sdepthMembers_mem : ∀ (l : List ObjectMember), ∀ m ∈ l,
    sdepth (memberShape m) ≤ sdepthMembers l := by
  intro l
  induction l with
  | nil =>
    intro m hm
    cases hm
  | cons x rest ih =>
    intro m hm
    rcases List.mem_cons.mp hm with rfl | hm'
    · cases m with
      | property k s opt =>
        simp only [sdepthMembers]
        exact le_max_left _ _
      | indexSignature s =>
        simp only [sdepthMembers]
        exact le_max_left _ _
    · cases x with
      | property k s opt =>
        simp only [sdepthMembers]
        exact le_trans (ih m hm') (le_max_right _ _)
      | indexSignature s =>
        simp only [sdepthMembers]
        exact le_trans (ih m hm') (le_max_right _ _)

theorem arrayLoop_isSome (w : Walker) (e : Shape) (path : String)
    (hw : ∀ x p, (w x e p).isSome = true) :
    ∀ (xs : List JSValue) (i : Nat),
      (arrayLoop w e path xs i).isSome = true := by
  intro xs
  induction xs with
  | nil =>
    intro i
    rfl
  | cons x rest ih =>
    intro i
    have h := hw x (itemPath path i)
    rcases hx : w x e (itemPath path i) with _ | r
    · rw [hx] at h
      simp at h
    · cases r with
      | ok =>
        simp only [arrayLoop, hx]
        exact ih (i + 1)
      | err er =>
        simp only [arrayLoop, hx]
        rfl

theorem varLoopAux_isSome (w : Walker) (elems : List JSValue) (s : Shape)
    (path : String) (hw : ∀ x p, (w x s p).isSome = true) :
    ∀ (k mx : Nat), (varLoopAux w elems s path k mx).isSome = true := by
  intro k
  induction k with
  | zero =>
    intro mx
    rfl
  | succ k ih =>
    intro mx
    have h := hw (arrGet elems mx) (itemPath path mx)
    rcases hx : w (arrGet elems mx) s (itemPath path mx) with _ | r
    · rw [hx] at h
      simp at h
    · cases r with
      | ok =>
        simp only [varLoopAux, hx]
        exact ih (mx + 1)
      | err e =>
        simp only [varLoopAux, hx]
        rfl

theorem optionalStep_isSome (w : Walker) (elems : List JSValue) (s : Shape)
    (path : String) (hw : ∀ x p, (w x s p).isSome = true) (mx : Nat) :
    (optionalStep w elems s path mx).isSome = true := by
  unfold optionalStep
  split
  · have h := hw (arrGet elems mx) (itemPath path mx)
    rcases hx : w (arrGet elems mx) s (itemPath path mx) with _ | r
    · rw [hx] at h
      simp at h
    · cases r <;> rfl
  · rfl

theorem requiredLoopAux_isSome {w : Walker} {elems : List JSValue} {s : Shape}
    {path : String} {mx : Nat} (hw : ∀ x p, (w x s p).isSome = true) :
    ∀ (k mn : Nat), mx ≤ mn + k →
      (requiredLoopAux w elems s path mx k mn).isSome = true := by
  intro k
  induction k with
  | zero =>
    intro mn hk
    have h := hw (arrGet elems mn) (itemPath path mn)
    rcases hx : w (arrGet elems mn) s (itemPath path mn) with _ | r
    · rw [hx] at h
      simp at h
    · cases r with
      | ok =>
        simp only [requiredLoopAux, hx]
        rfl
      | err e =>
        simp only [requiredLoopAux, hx]
        rw [if_pos (by omega)]
        rfl
  | succ k ih =>
    intro mn hk
    have h := hw (arrGet elems mn) (itemPath path mn)
    rcases hx : w (arrGet elems mn) s (itemPath path mn) with _ | r
    · rw [hx] at h
      simp at h
    · cases r with
      | ok =>
        simp only [requiredLoopAux, hx]
        rfl
      | err e =>
        simp only [requiredLoopAux, hx]
        by_cases hc : mx < mn + 1
        · rw [if_pos hc]
          rfl
        · rw [if_neg hc]
          exact ih (mn + 1) (by omega)

theorem requiredLoop_isSome (w : Walker) (elems : List JSValue) (s : Shape)
    (path : String) (hw : ∀ x p, (w x s p).isSome = true) (mn mx : Nat) :
    (requiredLoop w elems s path mn mx).isSome = true :=
  requiredLoopAux_isSome hw (mx - mn) mn (by omega)

theorem tupleItems_isSome (w : Walker) (elems : List JSValue) (path : String) :
    ∀ (items : List TupleItem),
      (∀ it ∈ items, ∀ x p, (w x (itemShape it) p).isSome = true) →
      ∀ (mn mx : Nat), (tupleItems w elems path items mn mx).isSome = true := by
  intro items
  induction items with
  | nil =>
    intro _ mn mx
    rfl
  | cons it rest ih =>
    intro hyp mn mx
    rcases it with ⟨s, t⟩
    have hws : ∀ x p, (w x s p).isSome = true :=
      fun x p => hyp ⟨s, t⟩ (by simp) x p
    have hrest : ∀ it' ∈ rest, ∀ x p, (w x (itemShape it') p).isSome = true :=
      fun it' h' x p => hyp it' (by simp [h']) x p
    cases t with
    | Required =>
      have h := requiredLoop_isSome w elems s path hws mn mx
      rcases hr : requiredLoop w elems s path mn mx with _ | r
      · rw [hr] at h
        simp at h
      · cases r with
        | inl e =>
          simp only [tupleItems, hr]
          rfl
        | inr pq =>
          rcases pq with ⟨mn', mx'⟩
          simp only [tupleItems, hr]
          exact ih hrest mn' mx'
    | Optional =>
      have h := optionalStep_isSome w elems s path hws mx
      rcases hr : optionalStep w elems s path mx with _ | mx'
      · rw [hr] at h
        simp at h
      · simp only [tupleItems, hr]
        exact ih hrest mn mx'
    | Variable =>
      have h : (varLoop w elems s path mx).isSome = true :=
        varLoopAux_isSome w elems s path hws (elems.length - mx) mx
      rcases hr : varLoop w elems s path mx with _ | mx'
      · rw [hr] at h
        simp at h
      · simp only [tupleItems, hr]
        exact ih hrest mn mx'

theorem tupleCase_isSome (w : Walker) (path : String)
    (data : JSValue) (items : List TupleItem)
    (hyp : ∀ it ∈ items, ∀ x p, (w x (itemShape it) p).isSome = true) :
    (tupleCase w data items path).isSome = true := by
  cases data
  case arr elems =>
    have h := tupleItems_isSome w elems path items hyp 0 0
    rcases hr : tupleItems w elems path items 0 0 with _ | r
    · rw [hr] at h
      simp at h
    · rcases r with e | ⟨mn, mx⟩
      · simp only [tupleCase, hr]
        rfl
      · simp only [tupleCase, hr]
        split <;> rfl
  all_goals rfl

theorem indexLoop_isSome (w : Walker) (data : JSValue) (s : Shape)
    (path : String) (hw : ∀ x p, (w x s p).isSome = true) :
    ∀ (keys : List String), (indexLoop w data s path keys).isSome = true := by
  intro keys
  induction keys with
  | nil => rfl
  | cons k rest ih =>
    have h := hw (getProp data k) (keyPath path k)
    rcases hx : w (getProp data k) s (keyPath path k) with _ | r
    · rw [hx] at h
      simp at h
    · cases r with
      | ok =>
        simp only [indexLoop, hx]
        exact ih
      | err e =>
        simp only [indexLoop, hx]
        rfl

theorem memberLoop_isSome (w : Walker) (data : JSValue) (path : String) :
    ∀ (ms : List ObjectMember),
      (∀ m ∈ ms, ∀ x p, (w x (memberShape m) p).isSome = true) →
      (memberLoop w data path ms).isSome = true := by
  intro ms
  induction ms with
  | nil =>
    intro _
    rfl
  | cons m rest ih =>
    intro hyp
    have hrest : ∀ m' ∈ rest, ∀ x p, (w x (memberShape m') p).isSome = true :=
      fun m' h' x p => hyp m' (by simp [h']) x p
    cases m with
    | property key s opt =>
      have hws : ∀ x p, (w x s p).isSome = true :=
        fun x p => hyp (.property key s opt) (by simp) x p
      simp only [memberLoop]
      split
      · have h := hws (getProp data key) (keyPath path key)
        rcases hx : w (getProp data key) s (keyPath path key) with _ | r
        · rw [hx] at h
          simp at h
        · cases r with
          | ok => exact ih hrest
          | err e => rfl
      · split
        · exact ih hrest
        · rfl
    | indexSignature s =>
      have hws : ∀ x p, (w x s p).isSome = true :=
        fun x p => hyp (.indexSignature s) (by simp) x p
      have h := indexLoop_isSome w data s path hws (ownEnumKeys data)
      rcases hx : indexLoop w data s path (ownEnumKeys data) with _ | r
      · rw [hx] at h
        simp at h
      · cases r with
        | none =>
          simp only [memberLoop, hx]
          exact ih hrest
        | some e =>
          simp only [memberLoop, hx]
          rfl

theorem objectCase_isSome (w : Walker) (path : String)
    (data : JSValue) (ms : List ObjectMember)
    (hyp : ∀ m ∈ ms, ∀ x p, (w x (memberShape m) p).isSome = true) :
    (objectCase w data ms path).isSome = true := by
  unfold objectCase
  split
  · have h := memberLoop_isSome w data path ms hyp
    rcases hx : memberLoop w data path ms with _ | r
    · rw [hx] at h
      simp at h
    · cases r <;> rfl
  · rfl

theorem unionLoop_isSome (w : Walker) (data : JSValue) (path : String) :
    ∀ (opts : List Shape) (errs : List PError),
      (∀ o ∈ opts, (w data o path).isSome = true) →
      (unionLoop w data path opts errs).isSome = true := by
  intro opts
  induction opts with
  | nil =>
    intro errs _
    rfl
  | cons o rest ih =>
    intro errs hyp
    have h := hyp o (by simp)
    rcases hx : w data o path with _ | r
    · rw [hx] at h
      simp at h
    · cases r with
      | ok =>
        simp only [unionLoop, hx]
        rfl
      | err e =>
        simp only [unionLoop, hx]
        exact ih (errs ++ [e]) (fun o' h' => hyp o' (by simp [h']))

theorem interLoop_isSome (w : Walker) (data : JSValue) (path : String) :
    ∀ (ms : List Shape),
      (∀ m ∈ ms, (w data m path).isSome = true) →
      (interLoop w data path ms).isSome = true := by
  intro ms
  induction ms with
  | nil =>
    intro _
    rfl
  | cons m rest ih =>
    intro hyp
    have h := hyp m (by simp)
    rcases hx : w data m path with _ | r
    · rw [hx] at h
      simp at h
    · cases r with
      | ok =>
        simp only [interLoop, hx]
        exact ih (fun m' h' => hyp m' (by simp [h']))
      | err e =>
        simp only [interLoop, hx]
        rfl

/-- For a Reference-free shape, recursion depth equal to the shape's
nesting depth suffices for `walk` to return, on every data value. -/
theorem walk_isSome_of_depth :
    ∀ (fuel : Nat) (s : Shape), refFree s = true → sdepth s ≤ fuel →
      ∀ (root : Shape) (data : JSValue) (path : String),
        (walk fuel root data s path).isSome = true := by
  intro fuel
  induction fuel with
  | zero =>
    intro s _ hd
    have := sdepth_pos s
    omega
  | succ fuel ih =>
    intro s hrf hd root data path
    cases s with
    | string => rfl
    | number => rfl
    | boolean => rfl
    | unknown => rfl
    | bigint => rfl
    | date => rfl
    | literal v => rfl
    | reference p => simp [refFree] at hrf
    | array e =>
      have hrf' : refFree e = true := by simpa [refFree] using hrf
      have hd' : sdepth e ≤ fuel := by
        have hs : sdepth (Shape.array e) = sdepth e + 1 := by simp [sdepth]
        omega
      cases data
      case arr elems =>
        show (arrayLoop (fun d' s' p' => walk fuel root d' s' p') e path
          elems 0).isSome = true
        exact arrayLoop_isSome _ e path
          (fun x p => ih e hrf' hd' root x p) elems 0
      all_goals rfl
    | tuple items =>
      have hrf' : refFreeItems items = true := by simpa [refFree] using hrf
      have hd' : sdepthItems items ≤ fuel := by
        have hs : sdepth (Shape.tuple items) = sdepthItems items + 1 := by
          simp [sdepth]
        omega
      show (tupleCase (fun d' s' p' => walk fuel root d' s' p') data items
        path).isSome = true
      exact tupleCase_isSome _ path data items
        (fun it hit x p => ih (itemShape it)
          (refFreeItems_mem items hrf' it hit)
          (le_trans (sdepthItems_mem items it hit) hd') root x p)
    | object ms =>
      have hrf' : refFreeMembers ms = true := by simpa [refFree] using hrf
      have hd' : sdepthMembers ms ≤ fuel := by
        have hs : sdepth (Shape.object ms) = sdepthMembers ms + 1 := by
          simp [sdepth]
        omega
      show (objectCase (fun d' s' p' => walk fuel root d' s' p') data ms
        path).isSome = true
      exact objectCase_isSome _ path data ms
        (fun m hm x p => ih (memberShape m)
          (refFreeMembers_mem ms hrf' m hm)
          (le_trans (sdepthMembers_mem ms m hm) hd') root x p)
    | union opts =>
      have hrf' : refFreeList opts = true := by simpa [refFree] using hrf
      have hd' : sdepthList opts ≤ fuel := by
        have hs : sdepth (Shape.union opts) = sdepthList opts + 1 := by
          simp [sdepth]
        omega
      show (unionLoop (fun d' s' p' => walk fuel root d' s' p') data path
        opts []).isSome = true
      exact unionLoop_isSome _ data path opts []
        (fun o ho => ih o (refFreeList_mem opts hrf' o ho)
          (le_trans (sdepthList_mem opts o ho) hd') root data path)
    | intersection ms =>
      have hrf' : refFreeList ms = true := by simpa [refFree] using hrf
      have hd' : sdepthList ms ≤ fuel := by
        have hs : sdepth (Shape.intersection ms) = sdepthList ms + 1 := by
          simp [sdepth]
        omega
      show (interLoop (fun d' s' p' => walk fuel root d' s' p') data path
        ms).isSome = true
      exact interLoop_isSome _ data path ms
        (fun m hm => ih m (refFreeList_mem ms hrf' m hm)
          (le_trans (sdepthList_mem ms m hm) hd') root data path)

/-- Against the self-referential shape `L`, a chain deeper than a third of
the allowed recursion depth exhausts it: no uniform depth bound exists. -/
theorem chain_none :
    ∀ (d f : Nat) (path : String), f ≤ 3 * d →
      walk f L (chain d) L path = none := by
  intro d
  induction d with
  | zero =>
    intro f path hf
    have h0 : f = 0 := by omega
    subst h0
    rfl
  | succ d ih =>
    intro f path hf
    rcases f with _ | f1
    · rfl
    rcases f1 with _ | f2
    · rfl
    rcases f2 with _ | f3
    · rfl
    show walk (f3 + 3) L (chain (d + 1)) L path = none
    have hval : walk (f3 + 1) L (.num 1) .number (keyPath path "value")
        = some .ok := rfl
    have hnext : walk (f3 + 1) L (chain d) (.reference [])
        (keyPath path "next") = none := by
      rw [show walk (f3 + 1) L (chain d) (.reference []) (keyPath path "next")
        = walk f3 L (chain d) L (keyPath path "next") from rfl]
      exact ih f3 (keyPath path "next") (by omega)
    have hml : memberLoop (fun d' s p => walk (f3 + 1) L d' s p)
        (.obj [("value", .num 1), ("next", chain d)]) path
        [.property "value" .number false,
         .property "next" (.reference []) false] = none := by
      simp only [memberLoop]
      rw [show hasKey (JSValue.obj [("value", JSValue.num 1), ("next", chain d)])
        "value" = true from rfl]
      rw [show getProp (JSValue.obj [("value", JSValue.num 1), ("next", chain d)])
        "value" = JSValue.num 1 from rfl]
      rw [hval]
      rw [show hasKey (JSValue.obj [("value", JSValue.num 1), ("next", chain d)])
        "next" = true from rfl]
      rw [show getProp (JSValue.obj [("value", JSValue.num 1), ("next", chain d)])
        "next" = chain d from rfl]
      rw [hnext]
      rfl
    have hobj : walk (f3 + 2) L (.obj [("value", .num 1), ("next", chain d)])
        (.object [.property "value" .number false,
                  .property "next" (.reference []) false]) path = none := by
      rw [show walk (f3 + 2) L
          (.obj [("value", JSValue.num 1), ("next", chain d)])
          (.object [.property "value" .number false,
                    .property "next" (.reference []) false]) path
        = objectCase (fun d' s p => walk (f3 + 1) L d' s p)
          (.obj [("value", JSValue.num 1), ("next", chain d)])
          [.property "value" .number false,
           .property "next" (.reference []) false] path from rfl]
      simp only [objectCase]
      rw [show isObjectLike
        (JSValue.obj [("value", JSValue.num 1), ("next", chain d)])
        = true from rfl]
      rw [hml]
      rfl
    rw [show chain (d + 1)
      = .obj [("value", JSValue.num 1), ("next", chain d)] from rfl]
    rw [show walk (f3 + 3) L
        (.obj [("value", JSValue.num 1), ("next", chain d)]) L path
      = unionCase (fun d' s p => walk (f3 + 2) L d' s p)
        (.obj [("value", JSValue.num 1), ("next", chain d)])
        [.object [.property "value" .number false,
                  .property "next" (.reference []) false],
         .literal .null] path from rfl]
    simp only [unionCase, unionLoop]
    rw [hobj]

/-- C9: for every Reference-free shape, `walk` returns on every data value
within recursion depth equal to the shape's nesting depth, so validation
terminates with recursion depth bounded by the shape's nesting; with
Reference nodes no uniform bound exists — against the self-referential
shape `L`, the depth-`f` chain already exhausts recursion depth `f`, for
every `f`.  This is the finite rendering of non-termination on a genuinely
cyclic data graph, which is the limit of these chains: no cycle detection
is performed on the data side. -/
theorem termination_depth_bound_and_reference_hazard :
    (∀ (s : Shape), refFree s = true → ∀ (fuel : Nat), sdepth s ≤ fuel →
      ∀ (root : Shape) (data : JSValue) (path : String),
        (walk fuel root data s path).isSome = true) ∧
    (∀ (f : Nat) (path : String), walk f L (chain f) L path = none) := by
  constructor
  · intro s hrf fuel hd root data path
    exact walk_isSome_of_depth fuel s hrf hd root data path
  · intro f path
    exact chain_none f f path (by omega)

theorem termination_depth_bound_and_reference_hazard_w :
    (walk 1 .number (.str "x") .number "root").isSome = true :=
  termination_depth_bound_and_reference_hazard.1 .number (by simp [refFree]) 1
    (by simp [sdepth]) .number (.str "x") "root"

/-- C10: an array passes the Object-kind admission test (arrays are truthy
with typeof 'object'), so an Object shape validates successfully against an
array data value whenever all of the shape's members succeed on it — for
example a shape with only an optional property, or with an IndexSignature
that every element (under its index keys) satisfies, accepts an array. -/
theorem array_passes_object_admission :
    (∀ elems : List JSValue, isObjectLike (.arr elems) = true) ∧
    (∀ (fuel : Nat) (root : Shape) (elems : List JSValue)
        (ms : List ObjectMember) (path : String),
      memberLoop (fun d s p => walk fuel root d s p) (.arr elems) path ms
        = some none →
      walk (fuel + 1) root (.arr elems) (.object ms) path = some .ok) ∧
    walk 2 (.object [.property "x" .number true]) (.arr [.num 1, .num 2])
      (.object [.property "x" .number true]) "root" = some .ok ∧
    walk 2 (.object [.indexSignature .number]) (.arr [.num 1, .num 2])
      (.object [.indexSignature .number]) "root" = some .ok := by
  refine ⟨fun _ => rfl, ?_, rfl, rfl⟩
  intro fuel root elems ms path h
  rw [show walk (fuel + 1) root (.arr elems) (.object ms) path
    = objectCase (fun d s p => walk fuel root d s p) (.arr elems) ms path
    from rfl]
  simp only [objectCase]
  rw [show isObjectLike (JSValue.arr elems) = true from rfl]
  rw [h]
  rfl

theorem array_passes_object_admission_w :
    walk 2 .unknown (.arr []) (.object []) "root" = some .ok :=
  array_passes_object_admission.2.1 1 .unknown [] [] "root" rfl

end TsSafeCast
